import Mathlib

/-!
Verification of the Percas distributed cache against its specification.

The definitions below are a shallow embedding of the relevant Rust sources:
- crates/gossip/src/ring.rs (MurmurHash3-based consistent hash ring),
- crates/gossip/src/member.rs and crates/cluster/src/member.rs (membership merge),
- crates/gossip/src/gossip.rs (gossip message handlers and bootstrap),
- crates/server/src/middleware.rs and crates/server/src/server.rs
  (cluster proxy endpoint, rate limiting),
- crates/core/src/engine.rs (cache engine read path).

Machine integers (u32 arithmetic of the hash) are modelled as Nat with
explicit reduction modulo 2 ^ 32; UUIDs and timestamps are modelled as Nat
(only their identity and order are used); BTreeMap/BTreeSet are modelled as
sorted association lists / sorted duplicate-free lists.
-/

namespace Percas

/-! ### MurmurHash3 x86-32, seed interface of the mur3 crate

Used by crates/gossip/src/ring.rs for both key and node hashing.
All words are kept below 2 ^ 32. -/

/-- Rotate a 32-bit word left by r bits (0 < r < 32). -/
def rotl32 (x r : Nat) : Nat :=
  x % 2 ^ (32 - r) * 2 ^ r + x / 2 ^ (32 - r)

/-- MurmurHash3 per-block mixing of a 4-byte word. -/
def mixK1 (k : Nat) : Nat :=
  rotl32 (k * 0xcc9e2d51 % 2 ^ 32) 15 * 0x1b873593 % 2 ^ 32

/-- MurmurHash3 state update for one full 4-byte block. -/
def stepH (h k : Nat) : Nat :=
  (rotl32 (h ^^^ mixK1 k) 13 * 5 + 0xe6546b64) % 2 ^ 32

/-- Little-endian 32-bit word from four bytes. -/
def leU32 (b0 b1 b2 b3 : Nat) : Nat :=
  b0 + b1 * 256 + b2 * 65536 + b3 * 16777216

/-- Consume all full 4-byte blocks, returning the running hash and the tail. -/
def murmurBlocks (h : Nat) : List Nat → Nat × List Nat
  | b0 :: b1 :: b2 :: b3 :: rest => murmurBlocks (stepH h (leU32 b0 b1 b2 b3)) rest
  | tail => (h, tail)

/-- Mix the 1 to 3 trailing bytes into a word. -/
def tailK1 : List Nat → Nat
  | [] => 0
  | [t0] => t0
  | [t0, t1] => t0 ^^^ (t1 <<< 8)
  | t0 :: t1 :: t2 :: _ => t0 ^^^ (t1 <<< 8) ^^^ (t2 <<< 16)

/-- MurmurHash3 finalization mix. -/
def fmix32 (h : Nat) : Nat :=
  let h1 := h ^^^ (h >>> 16)
  let h2 := h1 * 0x85ebca6b % 2 ^ 32
  let h3 := h2 ^^^ (h2 >>> 13)
  let h4 := h3 * 0xc2b2ae35 % 2 ^ 32
  h4 ^^^ (h4 >>> 16)

/-- MurmurHash3 x86-32 of a byte sequence, as computed by
mur3::murmurhash3_x86_32. -/
def murmurhash3_x86_32 (data : List Nat) (seed : Nat) : Nat :=
  let hb := murmurBlocks seed data
  let h := if hb.2 = [] then hb.1 else hb.1 ^^^ mixK1 (tailK1 hb.2)
  fmix32 (h ^^^ data.length)

/-- Bytes of an ASCII string (UTF-8 agrees with code points on ASCII). -/
def strBytes (s : String) : List Nat :=
  s.toList.map Char.toNat

/-- Little-endian byte encoding of a u32, as in vnode.to_le_bytes(). -/
def u32le (n : Nat) : List Nat :=
  [n % 256, n / 256 % 256, n / 65536 % 256, n / 16777216 % 256]

/-! ### Consistent hash ring, crates/gossip/src/ring.rs

The ring is a BTreeMap from u32 hash to a BTreeSet of nodes, modelled as an
association list with strictly increasing keys whose values are strictly
increasing nonempty lists. -/

/-- Insertion into a sorted duplicate-free list, as BTreeSet::insert
(keeps the existing element when already present). -/
def setInsert [LinearOrder T] (x : T) : List T → List T
  | [] => [x]
  | y :: ys =>
    if x < y then x :: y :: ys
    else if x = y then y :: ys
    else y :: setInsert x ys

/-- The effect of nodes.entry(hash).or_default().insert(node) on the sorted
association list of ring slots. -/
def slotsInsert [LinearOrder T] (h : Nat) (x : T) :
    List (Nat × List T) → List (Nat × List T)
  | [] => [(h, [x])]
  | (k, s) :: rest =>
    if h < k then (h, [x]) :: (k, s) :: rest
    else if h = k then (k, setInsert x s) :: rest
    else (k, s) :: slotsInsert h x rest

/-- HashRing from crates/gossip/src/ring.rs: vnodes count plus the ordered
slot map. -/
structure HashRing (T : Type) where
  vnodes : Nat
  nodes : List (Nat × List T)
deriving DecidableEq

/-- HashRing::new. -/
def HashRing.new (T : Type) (vnodes : Nat) : HashRing T :=
  { vnodes := vnodes, nodes := [] }

/-- HashRing::hash_key: MurmurHash3 x86-32 with seed 0 of the key bytes. -/
def hash_key (key : List Nat) : Nat :=
  murmurhash3_x86_32 key 0

/-- HashRing::hash_node: hash of the node bytes followed by the vnode index
in little-endian. -/
def hash_node (nodeBytes : List Nat) (vnode : Nat) : Nat :=
  murmurhash3_x86_32 (nodeBytes ++ u32le vnode) 0

/-- HashRing::add_node: insert one entry per vnode index below the vnodes
count. The asBytes argument models the AsRef of the node type. -/
def HashRing.add_node [LinearOrder T] (asBytes : T → List Nat)
    (ring : HashRing T) (node : T) : HashRing T :=
  { ring with
    nodes := (List.range ring.vnodes).foldl
      (fun ns i => slotsInsert (hash_node (asBytes node) i) node ns) ring.nodes }

/-- HashRing::lookup: first slot at or after the key digest, else wrap to the
first slot; the smallest element of the chosen slot set. -/
def HashRing.lookup [LinearOrder T] (ring : HashRing T) (key : List Nat) :
    Option T :=
  let digest := hash_key key
  (((ring.nodes.find? fun p => decide (digest ≤ p.1)).bind fun p => p.2.head?).orElse
    fun _ => ring.nodes.head?.bind fun p => p.2.head?)

/-- The make_ring helper of the ring unit test: HashRing::new then add_node
for each listed node in order. -/
def make_ring [LinearOrder T] (asBytes : T → List Nat) (vnode : Nat)
    (nodesList : List T) : HashRing T :=
  nodesList.foldl (HashRing.add_node asBytes) (HashRing.new T vnode)

/-- Apply a batch of slot insertions from the left. -/
def slotsApply {T : Type} [LinearOrder T] : List (Nat × T) → List (Nat × List T) → List (Nat × List T)
  | [], ns => ns
  | p :: ps, ns => slotsApply ps (slotsInsert p.1 p.2 ns)

/-- Well-formedness of the ring model: the BTreeMap invariant (strictly
increasing slot hashes) and the BTreeSet invariant for each slot (strictly
increasing, nonempty). -/
def ringWF {T : Type} [LinearOrder T] (r : HashRing T) : Prop :=
  r.nodes.Pairwise (fun a b => a.1 < b.1) ∧
    ∀ p ∈ r.nodes, p.2.Pairwise (· < ·) ∧ p.2 ≠ []

/-! ### Membership, crates/gossip/src/member.rs and crates/cluster/src/member.rs

UUIDs are modelled as Nat (only identity matters) and jiff timestamps as Nat
(only order and max are used). -/

/-- Member status from member.rs. -/
inductive MemberStatus
  | Alive
  | Dead
deriving DecidableEq

/-- MemberStatus::downgrade_to: keep Alive only against an Alive report,
otherwise adopt the incoming status. -/
def MemberStatus.downgrade_to : MemberStatus → MemberStatus → MemberStatus
  | .Alive, .Alive => .Alive
  | _, other => other

/-- NodeInfo from node.rs. -/
structure NodeInfo where
  node_id : Nat
  cluster_id : String
  advertise_addr : String
  advertise_peer_addr : String
  incarnation : Nat
deriving DecidableEq

/-- NodeInfo::advance_incarnation. -/
def NodeInfo.advance_incarnation (n : NodeInfo) : NodeInfo :=
  { n with incarnation := n.incarnation + 1 }

/-- MemberState from member.rs. -/
structure MemberState where
  info : NodeInfo
  status : MemberStatus
  heartbeat : Nat
deriving DecidableEq

/-- BTreeMap::get on the association-list model. -/
def findEntry (id : Nat) : List (Nat × MemberState) → Option MemberState
  | [] => none
  | (k, v) :: rest => if id = k then some v else findEntry id rest

/-- BTreeMap insert-or-replace on the sorted association-list model. -/
def insertEntry (id : Nat) (v : MemberState) :
    List (Nat × MemberState) → List (Nat × MemberState)
  | [] => [(id, v)]
  | (k, w) :: rest =>
    if id < k then (id, v) :: (k, w) :: rest
    else if id = k then (id, v) :: rest
    else (k, w) :: insertEntry id v rest

/-- Membership from member.rs: a BTreeMap from node_id to MemberState. -/
structure Membership where
  members : List (Nat × MemberState)
deriving DecidableEq

/-- Membership::is_dead. -/
def Membership.is_dead (m : Membership) (id : Nat) : Bool :=
  match findEntry id m.members with
  | some member => member.status = MemberStatus.Dead
  | none => false

/-- Membership::from_iter (FromIterator): insert every member keyed by its
node_id. -/
def Membership.from_iter (l : List MemberState) : Membership :=
  ⟨l.foldl (fun acc ms => insertEntry ms.info.node_id ms acc) []⟩

namespace gossip

/-- Membership::update_member from crates/gossip/src/member.rs. Returns the
updated map and the modified flag. -/
def update_member (m : Membership) (member : MemberState) : Membership × Bool :=
  match findEntry member.info.node_id m.members with
  | some current =>
    if current.info.incarnation < member.info.incarnation then
      (⟨insertEntry member.info.node_id member m.members⟩, true)
    else if member.info.incarnation < current.info.incarnation then
      (m, false)
    else
      let prev_status := current.status
      let prev_heartbeat := current.heartbeat
      let hb := max current.heartbeat member.heartbeat
      let st :=
        if prev_heartbeat ≤ member.heartbeat ∧ member.status ≠ current.status then
          member.status
        else
          current.status.downgrade_to member.status
      (⟨insertEntry member.info.node_id
          { current with status := st, heartbeat := hb } m.members⟩,
        decide (st ≠ prev_status ∨ hb ≠ prev_heartbeat))
  | none => (⟨insertEntry member.info.node_id member m.members⟩, true)

end gossip

namespace cluster

/-- Membership::update_member from crates/cluster/src/member.rs. At equal
incarnation, only downgrade_to is applied. -/
def update_member (m : Membership) (member : MemberState) : Membership :=
  match findEntry member.info.node_id m.members with
  | some current =>
    if current.info.incarnation < member.info.incarnation then
      ⟨insertEntry member.info.node_id member m.members⟩
    else if member.info.incarnation < current.info.incarnation then
      m
    else
      ⟨insertEntry member.info.node_id
        { current with status := current.status.downgrade_to member.status,
                       heartbeat := max current.heartbeat member.heartbeat }
        m.members⟩
  | none => ⟨insertEntry member.info.node_id member m.members⟩

end cluster

/-- The stored incarnation for a node id, when present. -/
def storedInc (m : Membership) (id : Nat) : Option Nat :=
  (findEntry id m.members).map fun ms => ms.info.incarnation

/-- Apply a sequence of gossip-variant update_member calls. -/
def applyUpdates (m : Membership) : List MemberState → Membership
  | [] => m
  | x :: xs => applyUpdates (gossip.update_member m x).1 xs

/-! ### Gossip engine, crates/gossip/src/gossip.rs

The wall clock (Timestamp::now()) is passed explicitly as a Nat at every
handler invocation; network replies are passed as explicit inputs. -/

/-- GossipMessage from gossip.rs. -/
inductive GossipMessage
  | Ping (info : NodeInfo)
  | Ack (info : NodeInfo)
  | Sync (members : List MemberState)
deriving DecidableEq

/-- Uuid::as_ref: the 16 bytes of the node id in big-endian. -/
def uuidBytes (n : Nat) : List Nat :=
  (List.range 16).map fun i => n / 2 ^ (8 * (15 - i)) % 256

/-- GossipState from gossip.rs restricted to its persistent data: the current
node info, the configured initial peers, the membership view and the ring. -/
structure GossipState where
  current_node : NodeInfo
  initial_peers : List String
  membership : Membership
  ring : HashRing Nat
deriving DecidableEq

/-- GossipState::handle_message: merge the sender (Ping and Ack) or the
whole incoming view plus a self re-assertion (Sync), reply accordingly, and
advance the own incarnation when the merged view marks the local node dead. -/
def GossipState.handle_message (s : GossipState) (now : Nat)
    (msg : GossipMessage) : GossipState × Option GossipMessage :=
  let mr : Membership × Option GossipMessage :=
    match msg with
    | .Ping info =>
      ((gossip.update_member s.membership ⟨info, .Alive, now⟩).1,
        some (.Ack s.current_node))
    | .Ack info =>
      ((gossip.update_member s.membership ⟨info, .Alive, now⟩).1, none)
    | .Sync members =>
      let m1 := members.foldl (fun m mem => (gossip.update_member m mem).1)
        s.membership
      let m2 := (gossip.update_member m1 ⟨s.current_node, .Alive, now⟩).1
      (m2, some (.Sync (m2.members.map fun p => p.2)))
  let s1 := { s with membership := mr.1 }
  if s1.membership.is_dead s.current_node.node_id then
    ({ s1 with current_node := s1.current_node.advance_incarnation }, mr.2)
  else
    (s1, mr.2)

/-- Run a sequence of handler invocations, each with its own clock value. -/
def runMessages (s : GossipState) : List (Nat × GossipMessage) → GossipState
  | [] => s
  | (now, msg) :: rest => runMessages (s.handle_message now msg).1 rest

/-- GossipState::rebuild_ring: re-assert the local node Alive and rebuild the
ring from the membership keys with the default 64 vnodes. -/
def GossipState.rebuild_ring (s : GossipState) (now : Nat) : GossipState :=
  let membership :=
    (gossip.update_member s.membership ⟨s.current_node, .Alive, now⟩).1
  { s with membership := membership,
           ring := make_ring uuidBytes 64 (membership.members.map fun p => p.1) }

/-- The Ping round of GossipState::fast_bootstrap: one transport outcome per
initial peer, in order; only an Ok(Ack) reply is handled. -/
def pingPhase (s : GossipState) :
    List (Nat × Option GossipMessage) → GossipState
  | [] => s
  | (now, reply) :: rest =>
    match reply with
    | some (GossipMessage.Ack info) =>
      pingPhase (s.handle_message now (GossipMessage.Ack info)).1 rest
    | _ => pingPhase s rest

/-- The Sync round of GossipState::fast_bootstrap: only an Ok(Sync) reply is
handled. -/
def syncPhase (s : GossipState) :
    List (Nat × Option GossipMessage) → GossipState
  | [] => s
  | (now, reply) :: rest =>
    match reply with
    | some (GossipMessage.Sync members) =>
      syncPhase (s.handle_message now (GossipMessage.Sync members)).1 rest
    | _ => syncPhase s rest

/-- GossipState::fast_bootstrap: Ping every initial peer, then Sync every
initial peer, then rebuild the ring. -/
def GossipState.fast_bootstrap (s : GossipState)
    (pingReplies syncReplies : List (Nat × Option GossipMessage))
    (now : Nat) : GossipState :=
  (syncPhase (pingPhase s pingReplies) syncReplies).rebuild_ring now

/-- The bootstrap part of GossipState::start: store a membership holding only
the local node Alive, run fast_bootstrap, and fail when the membership is
empty afterwards. -/
def GossipState.start (s : GossipState) (now : Nat)
    (pingReplies syncReplies : List (Nat × Option GossipMessage))
    (bootNow : Nat) : Except String GossipState :=
  let s1 := { s with
    membership := Membership.from_iter [⟨s.current_node, .Alive, now⟩] }
  let s2 := s1.fast_bootstrap pingReplies syncReplies bootNow
  if s2.membership.members = [] then
    Except.error "failed to bootstrap the cluster: no initial peer available"
  else
    Except.ok s2

/-- The local node is present in the membership with status Alive. -/
def GossipState.localAlive (s : GossipState) : Bool :=
  match findEntry s.current_node.node_id s.membership.members with
  | some ms => decide (ms.status = MemberStatus.Alive)
  | none => false

/-- The message carries no Dead report about the given node id with an
incarnation above the given one. -/
def benignFor (id inc : Nat) : GossipMessage → Bool
  | .Sync members => members.all fun mem =>
      !(mem.info.node_id == id && mem.status == MemberStatus.Dead) ||
        decide (mem.info.incarnation ≤ inc)
  | _ => true

/-- Invariant during a Sync merge: the node id stays present, and is either
Alive or carries an incarnation at most c. -/
def QInv (id c : Nat) (m : Membership) : Prop :=
  ∃ ms, findEntry id m.members = some ms ∧
    (ms.status = MemberStatus.Alive ∨ ms.info.incarnation ≤ c)

/-- The membership computed by a GossipState::handle_message invocation. -/
def handleMembership (s : GossipState) (now : Nat) : GossipMessage → Membership
  | .Ping info => (gossip.update_member s.membership ⟨info, .Alive, now⟩).1
  | .Ack info => (gossip.update_member s.membership ⟨info, .Alive, now⟩).1
  | .Sync members =>
    (gossip.update_member
      (members.foldl (fun m mem => (gossip.update_member m mem).1) s.membership)
      ⟨s.current_node, .Alive, now⟩).1

/-! ### Data-plane middleware, crates/server/src/middleware.rs and
crates/server/src/server.rs

Requests, responses and the internal percas client are modelled by their
observable data; a response records its status, its Location header (never
set by this code) and its body. -/

namespace server

/-- RouteDest from crates/cluster/src/proxy.rs. -/
inductive RouteDest
  | Local
  | RemoteAddr (addr : String)
deriving DecidableEq

/-- The request methods distinguished by ClusterProxyEndpoint::call. -/
inductive Method
  | GET
  | PUT
  | DELETE
  | OTHER
deriving DecidableEq

/-- An HTTP request: method, path-extracted key, and body bytes. -/
structure Request where
  method : Method
  key : String
  body : List Nat
deriving DecidableEq

/-- A response body: raw bytes or the text rendering of a status code. -/
inductive RespBody
  | bytes (data : List Nat)
  | statusText (code : Nat)
deriving DecidableEq

/-- An HTTP response: status, optional Location header, body. -/
structure Response where
  status : Nat
  location : Option String
  body : RespBody
deriving DecidableEq

/-- get_success from server.rs: 200 with the value as octet-stream body. -/
def get_success (value : List Nat) : Response :=
  ⟨200, none, RespBody.bytes value⟩

/-- get_not_found from server.rs: 404 with the status text as body. -/
def get_not_found : Response :=
  ⟨404, none, RespBody.statusText 404⟩

/-- put_success from server.rs: 201 with the status text as body. -/
def put_success : Response :=
  ⟨201, none, RespBody.statusText 201⟩

/-- delete_success from server.rs: 204 with an empty body. -/
def delete_success : Response :=
  ⟨204, none, RespBody.bytes []⟩

/-- The outcomes of the percas client calls made by the proxy middleware
against the remote owner: ClientBuilder::new(http://addr).build() followed
by get/put/delete. -/
structure RemoteClient where
  get : String → Except Unit (Option (List Nat))
  put : String → List Nat → Except Unit Unit
  delete : String → Except Unit Unit

/-- ClusterProxyEndpoint::call from middleware.rs (the same code is
duplicated in server.rs): route the key; serve locally, or forward the
operation to the remote owner through the client, falling back to the local
endpoint when the remote call fails. -/
def ClusterProxyEndpoint.call (proxy : Option (String → RouteDest))
    (client : String → RemoteClient) (endpoint : Request → Response)
    (req : Request) : Response :=
  match proxy with
  | some route =>
    match route req.key with
    | RouteDest.Local => endpoint req
    | RouteDest.RemoteAddr addr =>
      let c := client addr
      match req.method with
      | Method.GET =>
        match c.get req.key with
        | Except.ok (some value) => get_success value
        | Except.ok none => get_not_found
        | Except.error _ => endpoint req
      | Method.PUT =>
        match c.put req.key req.body with
        | Except.ok _ => put_success
        | Except.error _ => endpoint req
      | Method.DELETE =>
        match c.delete req.key with
        | Except.ok _ => delete_success
        | Except.error _ => endpoint req
      | Method.OTHER => endpoint req
  | none => endpoint req

/-- RateLimitMiddleware::new from middleware.rs: run permits are
cores x 100, wait permits are run permits x 5. -/
structure RateLimitMiddleware where
  wait_permit : Nat
  run_permit : Nat
deriving DecidableEq

/-- RateLimitMiddleware::new given the num_cpus() count. -/
def RateLimitMiddleware.new (cores : Nat) : RateLimitMiddleware :=
  let run_limit := cores * 100
  let wait_limit := run_limit * 5
  { wait_permit := wait_limit, run_permit := run_limit }

/-- RateLimitEndpoint::call from middleware.rs, given the number of
currently available wait permits: try_acquire fails exactly when no permit
is available, answering 429 without invoking the inner endpoint; otherwise
the run permit is awaited and the inner endpoint is invoked. The Bool
records whether the inner endpoint was invoked. -/
def RateLimitEndpoint.call (wait_available : Nat)
    (endpoint : Request → Response) (req : Request) : Response × Bool :=
  if wait_available = 0 then
    (⟨429, none, RespBody.statusText 429⟩, false)
  else
    (endpoint req, true)

end server

/-! ### Cache engine read path, crates/core/src/engine.rs -/

/-- FoyerEngine::get from engine.rs, as a function of the disk/hybrid layer
outcome self.inner.get(key): only Ok(Some(value)) yields a hit; both Ok(None)
and Err(_) surface as none. -/
def FoyerEngine.get (inner_get : Except String (Option (List Nat))) :
    Option (List Nat) :=
  match inner_get with
  | Except.ok (some value) => some value
  | _ => none

/-! ### Concrete fixtures used in the claim theorems below -/

/-- A node info with id 0 and incarnation 0. -/
def info0 : NodeInfo :=
  ⟨0, "percas-cluster", "127.0.0.1:9000", "127.0.0.1:9001", 0⟩

/-- The same node id 0 at incarnation 1. -/
def info0inc1 : NodeInfo :=
  ⟨0, "percas-cluster", "127.0.0.1:9000", "127.0.0.1:9001", 1⟩

/-- A second node, id 1, incarnation 0. -/
def info1 : NodeInfo :=
  ⟨1, "percas-cluster", "127.0.0.1:9100", "127.0.0.1:9101", 0⟩

/-- A gossip state for node 0 with no initial peers whose membership holds
only itself, Alive. -/
def s0 : GossipState :=
  ⟨info0, [], ⟨[(0, ⟨info0, MemberStatus.Alive, 0⟩)]⟩, HashRing.new Nat 64⟩

/-- A route table sending every key to a fixed remote owner. -/
def cexRoute : String → server.RouteDest :=
  fun _ => server.RouteDest.RemoteAddr "10.0.0.2:7654"

/-- A remote client whose calls all succeed; get returns the bytes of
the string value. -/
def cexClient : String → server.RemoteClient :=
  fun _ =>
    ⟨fun _ => Except.ok (some [118, 97, 108]),
     fun _ _ => Except.ok (),
     fun _ => Except.ok ()⟩

/-- A local endpoint answering 500 to everything. -/
def cexEndpoint : server.Request → server.Response :=
  fun _ => ⟨500, none, server.RespBody.statusText 500⟩

/-- A GET request for key k. -/
def cexReq : server.Request :=
  ⟨server.Method.GET, "k", []⟩

section RingLemmas

variable {T : Type} [LinearOrder T]

theorem setInsert_comm_lt {x y : T} (hxy : x < y) (s : List T) :
    setInsert x (setInsert y s) = setInsert y (setInsert x s) := by
  induction s with
  | nil =>
    simp [setInsert, hxy, lt_asymm hxy, hxy.ne, hxy.ne']
  | cons z zs ih =>
    rcases lt_trichotomy x z with hxz | hxz | hxz
    · rcases lt_trichotomy y z with hyz | hyz | hyz
      · simp [setInsert, hxy, hxz, hyz, lt_asymm hxy, hxy.ne, hxy.ne']
      · subst hyz
        simp [setInsert, hxy, hxz, lt_irrefl, lt_asymm hxy, hxy.ne, hxy.ne']
      · simp [setInsert, hxy, hxz, lt_asymm hyz, hyz.ne', lt_asymm hxy,
          hxy.ne, hxy.ne']
    · subst hxz
      simp [setInsert, hxy, lt_irrefl, lt_asymm hxy, hxy.ne']
    · have hyz : z < y := hxz.trans hxy
      simp [setInsert, lt_asymm hxz, hxz.ne', lt_asymm hyz, hyz.ne', ih]

theorem setInsert_comm (x y : T) (s : List T) :
    setInsert x (setInsert y s) = setInsert y (setInsert x s) := by
  rcases lt_trichotomy x y with h | h | h
  · exact setInsert_comm_lt h s
  · subst h; rfl
  · exact (setInsert_comm_lt h s).symm

theorem slotsInsert_comm_eq (h : Nat) (x y : T) (s : List (Nat × List T)) :
    slotsInsert h x (slotsInsert h y s) = slotsInsert h y (slotsInsert h x s) := by
  induction s with
  | nil =>
    simp only [slotsInsert, lt_irrefl, if_false, eq_self_iff_true, if_true]
    exact congrArg (fun l => [(h, l)]) (setInsert_comm x y [])
  | cons p rest ih =>
    obtain ⟨k, s0⟩ := p
    rcases lt_trichotomy h k with hk | hk | hk
    · simp only [slotsInsert, hk, if_true, lt_irrefl, if_false, eq_self_iff_true]
      exact congrArg (fun l => (h, l) :: (k, s0) :: rest) (setInsert_comm x y [])
    · subst hk
      simp [slotsInsert, lt_irrefl, setInsert_comm]
    · simp [slotsInsert, hk, Nat.lt_asymm hk, (Nat.ne_of_lt hk).symm, ih]

theorem slotsInsert_comm_lt {h1 h2 : Nat} (h12 : h1 < h2) (x y : T)
    (s : List (Nat × List T)) :
    slotsInsert h1 x (slotsInsert h2 y s) = slotsInsert h2 y (slotsInsert h1 x s) := by
  induction s with
  | nil =>
    simp [slotsInsert, h12, Nat.lt_asymm h12, Nat.ne_of_lt h12,
      (Nat.ne_of_lt h12).symm]
  | cons p rest ih =>
    obtain ⟨k, s0⟩ := p
    rcases lt_trichotomy h1 k with hk1 | hk1 | hk1
    · rcases lt_trichotomy h2 k with hk2 | hk2 | hk2
      · simp [slotsInsert, h12, hk1, hk2, Nat.lt_asymm h12, Nat.ne_of_lt h12,
          (Nat.ne_of_lt h12).symm]
      · subst hk2
        simp [slotsInsert, h12, hk1, lt_irrefl, Nat.lt_asymm h12,
          Nat.ne_of_lt h12, (Nat.ne_of_lt h12).symm]
      · simp [slotsInsert, h12, hk1, Nat.lt_asymm hk2, (Nat.ne_of_lt hk2).symm,
          Nat.lt_asymm h12, Nat.ne_of_lt h12, (Nat.ne_of_lt h12).symm]
    · subst hk1
      simp [slotsInsert, h12, lt_irrefl, Nat.lt_asymm h12,
        (Nat.ne_of_lt h12).symm]
    · have hk2 : k < h2 := hk1.trans h12
      simp [slotsInsert, Nat.lt_asymm hk1, (Nat.ne_of_lt hk1).symm,
        Nat.lt_asymm hk2, (Nat.ne_of_lt hk2).symm, ih]

theorem slotsInsert_comm (h1 h2 : Nat) (x y : T) (s : List (Nat × List T)) :
    slotsInsert h1 x (slotsInsert h2 y s) = slotsInsert h2 y (slotsInsert h1 x s) := by
  rcases lt_trichotomy h1 h2 with h | h | h
  · exact slotsInsert_comm_lt h x y s
  · subst h; exact slotsInsert_comm_eq h1 x y s
  · exact (slotsInsert_comm_lt h y x s).symm

theorem slotsApply_eq_foldl (ps : List (Nat × T)) (ns : List (Nat × List T)) :
    slotsApply ps ns = ps.foldl (fun s p => slotsInsert p.1 p.2 s) ns := by
  induction ps generalizing ns with
  | nil => rfl
  | cons q qs ih => simp [slotsApply, ih]

theorem slotsApply_slotsInsert (ps : List (Nat × T)) (h : Nat) (x : T)
    (ns : List (Nat × List T)) :
    slotsApply ps (slotsInsert h x ns) = slotsInsert h x (slotsApply ps ns) := by
  induction ps generalizing ns with
  | nil => rfl
  | cons q qs ih =>
    show slotsApply qs (slotsInsert q.1 q.2 (slotsInsert h x ns))
      = slotsInsert h x (slotsApply qs (slotsInsert q.1 q.2 ns))
    rw [slotsInsert_comm q.1 h q.2 x ns, ih]

theorem slotsApply_swap (ps qs : List (Nat × T)) (ns : List (Nat × List T)) :
    slotsApply ps (slotsApply qs ns) = slotsApply qs (slotsApply ps ns) := by
  induction qs generalizing ns with
  | nil => rfl
  | cons q qs ih =>
    show slotsApply ps (slotsApply qs (slotsInsert q.1 q.2 ns))
      = slotsApply qs (slotsInsert q.1 q.2 (slotsApply ps ns))
    rw [ih (slotsInsert q.1 q.2 ns), slotsApply_slotsInsert ps q.1 q.2 ns]

theorem add_node_nodes (asBytes : T → List Nat) (ring : HashRing T) (node : T) :
    (ring.add_node asBytes node).nodes =
      slotsApply ((List.range ring.vnodes).map
        fun i => (hash_node (asBytes node) i, node)) ring.nodes := by
  simp [HashRing.add_node, slotsApply_eq_foldl, List.foldl_map]

theorem add_node_vnodes (asBytes : T → List Nat) (ring : HashRing T) (node : T) :
    (ring.add_node asBytes node).vnodes = ring.vnodes := rfl

theorem add_node_comm (asBytes : T → List Nat) (ring : HashRing T) (a b : T) :
    (ring.add_node asBytes a).add_node asBytes b
      = (ring.add_node asBytes b).add_node asBytes a := by
  cases ring with
  | mk vn ns =>
    have h := slotsApply_swap
      ((List.range vn).map fun i => (hash_node (asBytes b) i, b))
      ((List.range vn).map fun i => (hash_node (asBytes a) i, a)) ns
    simp only [slotsApply_eq_foldl, List.foldl_map] at h
    simp only [HashRing.add_node, HashRing.mk.injEq, true_and]
    exact h

/-- S6/ring determinism: building from a permutation of the same node list
with the same vnodes count yields an identical ring. -/
theorem make_ring_perm (asBytes : T → List Nat) (vnode : Nat)
    {l1 l2 : List T} (p : l1.Perm l2) :
    make_ring asBytes vnode l1 = make_ring asBytes vnode l2 := by
  haveI : RightCommutative (HashRing.add_node asBytes) :=
    ⟨fun r a b => add_node_comm asBytes r a b⟩
  exact p.foldl_eq (HashRing.new T vnode)

theorem mem_setInsert {z x : T} {s : List T} (hz : z ∈ setInsert x s) :
    z = x ∨ z ∈ s := by
  induction s with
  | nil => simpa [setInsert] using hz
  | cons y ys ih =>
    by_cases h1 : x < y
    · simp only [setInsert, if_pos h1, List.mem_cons] at hz ⊢
      tauto
    · by_cases h2 : x = y
      · simp only [setInsert, if_neg h1, if_pos h2, List.mem_cons] at hz ⊢
        tauto
      · simp only [setInsert, if_neg h1, if_neg h2, List.mem_cons] at hz
        rcases hz with hz | hz
        · right; simp [hz]
        · rcases ih hz with hz | hz
          · tauto
          · right; simp [hz]

theorem setInsert_pairwise {x : T} {s : List T} (hs : s.Pairwise (· < ·)) :
    (setInsert x s).Pairwise (· < ·) := by
  induction s with
  | nil => simp [setInsert]
  | cons y ys ih =>
    rw [List.pairwise_cons] at hs
    by_cases h1 : x < y
    · rw [setInsert, if_pos h1, List.pairwise_cons]
      refine ⟨?_, List.pairwise_cons.2 hs⟩
      intro b hb
      rcases List.mem_cons.1 hb with hb | hb
      · exact hb ▸ h1
      · exact h1.trans (hs.1 b hb)
    · by_cases h2 : x = y
      · rw [setInsert, if_neg h1, if_pos h2]
        exact List.pairwise_cons.2 hs
      · rw [setInsert, if_neg h1, if_neg h2, List.pairwise_cons]
        refine ⟨?_, ih hs.2⟩
        intro b hb
        rcases mem_setInsert hb with hb | hb
        · subst hb
          rcases lt_trichotomy y b with h | h | h
          · exact h
          · exact absurd h.symm h2
          · exact absurd h h1
        · exact hs.1 b hb

theorem setInsert_ne_nil (x : T) (s : List T) : setInsert x s ≠ [] := by
  cases s with
  | nil => simp [setInsert]
  | cons y ys =>
    rw [setInsert]
    split
    · simp
    · split <;> simp

theorem mem_slotsInsert {q : Nat × List T} {h : Nat} {x : T}
    {ns : List (Nat × List T)} (hq : q ∈ slotsInsert h x ns) :
    q = (h, [x]) ∨ (∃ s0, (h, s0) ∈ ns ∧ q = (h, setInsert x s0)) ∨ q ∈ ns := by
  induction ns with
  | nil => simpa [slotsInsert] using hq
  | cons p rest ih =>
    obtain ⟨k, s0⟩ := p
    by_cases h1 : h < k
    · simp only [slotsInsert, if_pos h1, List.mem_cons] at hq
      rcases hq with hq | hq | hq
      · exact Or.inl hq
      · right; right; simp [hq]
      · right; right; simp [hq]
    · by_cases h2 : h = k
      · simp only [slotsInsert, if_neg h1, if_pos h2, List.mem_cons] at hq
        rcases hq with hq | hq
        · subst h2
          exact Or.inr (Or.inl ⟨s0, by simp, hq⟩)
        · right; right; simp [hq]
      · simp only [slotsInsert, if_neg h1, if_neg h2, List.mem_cons] at hq
        rcases hq with hq | hq
        · right; right; simp [hq]
        · rcases ih hq with hq | hq | hq
          · exact Or.inl hq
          · obtain ⟨s1, hs1, he⟩ := hq
            exact Or.inr (Or.inl ⟨s1, by simp [hs1], he⟩)
          · right; right; simp [hq]

theorem slotsInsert_keys_pairwise {h : Nat} {x : T} {ns : List (Nat × List T)}
    (hns : ns.Pairwise (fun a b => a.1 < b.1)) :
    (slotsInsert h x ns).Pairwise (fun a b => a.1 < b.1) := by
  induction ns with
  | nil => simp [slotsInsert]
  | cons p rest ih =>
    obtain ⟨k, s0⟩ := p
    rw [List.pairwise_cons] at hns
    by_cases h1 : h < k
    · rw [slotsInsert, if_pos h1, List.pairwise_cons]
      refine ⟨?_, List.pairwise_cons.2 hns⟩
      intro b hb
      rcases List.mem_cons.1 hb with hb | hb
      · exact hb ▸ h1
      · exact h1.trans (hns.1 b hb)
    · by_cases h2 : h = k
      · rw [slotsInsert, if_neg h1, if_pos h2, List.pairwise_cons]
        exact ⟨hns.1, hns.2⟩
      · rw [slotsInsert, if_neg h1, if_neg h2, List.pairwise_cons]
        refine ⟨?_, ih hns.2⟩
        intro b hb
        rcases mem_slotsInsert hb with hb | hb | hb
        · subst hb
          omega
        · obtain ⟨s1, _, he⟩ := hb
          subst he
          omega
        · exact hns.1 b hb

theorem slotsInsert_wf {h : Nat} {x : T} {ns : List (Nat × List T)}
    (hns : ∀ p ∈ ns, p.2.Pairwise (· < ·) ∧ p.2 ≠ []) :
    ∀ p ∈ slotsInsert h x ns, p.2.Pairwise (· < ·) ∧ p.2 ≠ [] := by
  intro p hp
  rcases mem_slotsInsert hp with hp | hp | hp
  · subst hp
    simp
  · obtain ⟨s0, hs0, he⟩ := hp
    subst he
    exact ⟨setInsert_pairwise (hns _ hs0).1, setInsert_ne_nil x s0⟩
  · exact hns p hp

theorem slotsApply_wf (ps : List (Nat × T)) {ns : List (Nat × List T)}
    (h1 : ns.Pairwise (fun a b => a.1 < b.1))
    (h2 : ∀ p ∈ ns, p.2.Pairwise (· < ·) ∧ p.2 ≠ []) :
    (slotsApply ps ns).Pairwise (fun a b => a.1 < b.1) ∧
      ∀ p ∈ slotsApply ps ns, p.2.Pairwise (· < ·) ∧ p.2 ≠ [] := by
  induction ps generalizing ns with
  | nil => exact ⟨h1, h2⟩
  | cons q qs ih =>
    exact ih (slotsInsert_keys_pairwise h1) (slotsInsert_wf h2)

theorem add_node_wf (asBytes : T → List Nat) {r : HashRing T} (node : T)
    (hr : ringWF r) : ringWF (r.add_node asBytes node) := by
  rw [ringWF, add_node_nodes]
  exact slotsApply_wf _ hr.1 hr.2

theorem foldl_add_node_wf (asBytes : T → List Nat) (l : List T)
    {r : HashRing T} (hr : ringWF r) :
    ringWF (l.foldl (HashRing.add_node asBytes) r) := by
  induction l generalizing r with
  | nil => exact hr
  | cons n rest ih => exact ih (add_node_wf asBytes n hr)

theorem make_ring_wf (asBytes : T → List Nat) (vnode : Nat)
    (nodesList : List T) : ringWF (make_ring asBytes vnode nodesList) :=
  foldl_add_node_wf asBytes nodesList ⟨List.Pairwise.nil, by simp [HashRing.new]⟩

omit [LinearOrder T] in
theorem find?_ge_first {d : Nat} {ns : List (Nat × List T)} {p : Nat × List T}
    (hns : ns.Pairwise (fun a b => a.1 < b.1))
    (hf : ns.find? (fun q => decide (d ≤ q.1)) = some p) :
    p ∈ ns ∧ d ≤ p.1 ∧ ∀ q ∈ ns, d ≤ q.1 → p.1 ≤ q.1 := by
  induction ns with
  | nil => simp at hf
  | cons a l ih =>
    rw [List.pairwise_cons] at hns
    by_cases ha : d ≤ a.1
    · rw [List.find?_cons_of_pos l (by simpa using ha)] at hf
      obtain rfl : a = p := by simpa using hf
      refine ⟨by simp, ha, ?_⟩
      intro q hq _
      rcases List.mem_cons.1 hq with hq | hq
      · simp [hq]
      · exact le_of_lt (hns.1 q hq)
    · rw [List.find?_cons_of_neg l (by simpa using ha)] at hf
      obtain ⟨hp1, hp2, hp3⟩ := ih hns.2 hf
      refine ⟨List.mem_cons.2 (Or.inr hp1), hp2, ?_⟩
      intro q hq hdq
      rcases List.mem_cons.1 hq with hq | hq
      · exact absurd (hq ▸ hdq) ha
      · exact hp3 q hq hdq

omit [LinearOrder T] in
theorem head?_min {ns : List (Nat × List T)} {p : Nat × List T}
    (hns : ns.Pairwise (fun a b => a.1 < b.1)) (hh : ns.head? = some p) :
    p ∈ ns ∧ ∀ q ∈ ns, p.1 ≤ q.1 := by
  obtain ⟨ys, rfl⟩ := List.head?_eq_some_iff.1 hh
  rw [List.pairwise_cons] at hns
  refine ⟨by simp, ?_⟩
  intro q hq
  rcases List.mem_cons.1 hq with hq | hq
  · simp [hq]
  · exact le_of_lt (hns.1 q hq)

theorem sortedSet_head_min {s : List T} {x : T}
    (hs : s.Pairwise (· < ·)) (hh : s.head? = some x) :
    x ∈ s ∧ ∀ y ∈ s, x ≤ y := by
  obtain ⟨ys, rfl⟩ := List.head?_eq_some_iff.1 hh
  rw [List.pairwise_cons] at hs
  refine ⟨by simp, ?_⟩
  intro y hy
  rcases List.mem_cons.1 hy with hy | hy
  · simp [hy]
  · exact le_of_lt (hs.1 y hy)

/-- Characterization of HashRing::lookup on well-formed nonempty rings:
the result is the least element of the first slot at or past the key hash,
or of the least slot when the hash is past every slot. -/
theorem lookup_characterization {r : HashRing T} (hr : ringWF r)
    (hne : r.nodes ≠ []) (key : List Nat) :
    ∃ k s x, (k, s) ∈ r.nodes ∧ x ∈ s ∧ (∀ y ∈ s, x ≤ y) ∧
      r.lookup key = some x ∧
      ((hash_key key ≤ k ∧ ∀ q ∈ r.nodes, hash_key key ≤ q.1 → k ≤ q.1) ∨
        ((∀ q ∈ r.nodes, q.1 < hash_key key) ∧ ∀ q ∈ r.nodes, k ≤ q.1)) := by
  rcases hf : r.nodes.find? (fun q => decide (hash_key key ≤ q.1)) with _ | p
  · rcases hh : r.nodes.head? with _ | p0
    · exact absurd (List.head?_eq_none_iff.1 hh) hne
    · obtain ⟨hp0, hmin⟩ := head?_min hr.1 hh
      obtain ⟨hws, hwn⟩ := hr.2 p0 hp0
      rcases hx : p0.2.head? with _ | x
      · exact absurd (List.head?_eq_none_iff.1 hx) hwn
      · obtain ⟨hxs, hxmin⟩ := sortedSet_head_min hws hx
        refine ⟨p0.1, p0.2, x, by simpa using hp0, hxs, hxmin, ?_, Or.inr ⟨?_, hmin⟩⟩
        · rw [HashRing.lookup]
          simp only [hf, hh, Option.none_bind, Option.some_bind, hx]
          rfl
        · intro q hq
          have := List.find?_eq_none.1 hf q hq
          simpa using this
  · obtain ⟨hp, hdp, hpmin⟩ := find?_ge_first hr.1 hf
    obtain ⟨hws, hwn⟩ := hr.2 p hp
    rcases hx : p.2.head? with _ | x
    · exact absurd (List.head?_eq_none_iff.1 hx) hwn
    · obtain ⟨hxs, hxmin⟩ := sortedSet_head_min hws hx
      refine ⟨p.1, p.2, x, by simpa using hp, hxs, hxmin, ?_, Or.inl ⟨hdp, hpmin⟩⟩
      rw [HashRing.lookup]
      simp only [hf, Option.some_bind, hx]
      rfl

end RingLemmas

theorem findEntry_insertEntry (id k : Nat) (v : MemberState)
    (l : List (Nat × MemberState)) :
    findEntry id (insertEntry k v l) =
      if id = k then some v else findEntry id l := by
  induction l with
  | nil =>
    by_cases h : id = k <;> simp [insertEntry, findEntry, h]
  | cons p rest ih =>
    obtain ⟨k0, w⟩ := p
    by_cases h1 : k < k0
    · by_cases h : id = k <;> by_cases h0 : id = k0 <;>
        simp [insertEntry, findEntry, h1, h, h0]
    · by_cases h2 : k = k0
      · subst h2
        by_cases h : id = k <;> simp [insertEntry, findEntry, h1, h]
      · by_cases h0 : id = k0
        · subst h0
          simp [insertEntry, findEntry, h1, h2, Ne.symm h2]
        · simp [insertEntry, findEntry, h1, h2, h0, ih]

theorem gossip_update_other (m : Membership) (x : MemberState) (id : Nat)
    (hne : x.info.node_id ≠ id) :
    findEntry id (gossip.update_member m x).1.members = findEntry id m.members := by
  rcases hf : findEntry x.info.node_id m.members with _ | cur <;>
    simp only [gossip.update_member, hf]
  · simp [findEntry_insertEntry, Ne.symm hne]
  · by_cases h1 : cur.info.incarnation < x.info.incarnation
    · simp [h1, findEntry_insertEntry, Ne.symm hne]
    · by_cases h2 : x.info.incarnation < cur.info.incarnation
      · simp [h1, h2]
      · simp [h1, h2, findEntry_insertEntry, Ne.symm hne]

theorem gossip_update_self (m : Membership) (x : MemberState) (cur : MemberState)
    (hf : findEntry x.info.node_id m.members = some cur) :
    findEntry x.info.node_id (gossip.update_member m x).1.members =
      if cur.info.incarnation < x.info.incarnation then some x
      else if x.info.incarnation < cur.info.incarnation then some cur
      else some { cur with
        status :=
          if cur.heartbeat ≤ x.heartbeat ∧ x.status ≠ cur.status then x.status
          else cur.status.downgrade_to x.status,
        heartbeat := max cur.heartbeat x.heartbeat } := by
  simp only [gossip.update_member, hf]
  by_cases h1 : cur.info.incarnation < x.info.incarnation
  · simp [h1, findEntry_insertEntry]
  · by_cases h2 : x.info.incarnation < cur.info.incarnation
    · simp [h1, h2, hf]
    · simp [h1, h2, findEntry_insertEntry]

theorem gossip_update_inc_mono (m : Membership) (x : MemberState) (id : Nat)
    (cur : MemberState) (hf : findEntry id m.members = some cur) :
    ∃ cur2, findEntry id (gossip.update_member m x).1.members = some cur2 ∧
      cur.info.incarnation ≤ cur2.info.incarnation := by
  by_cases hid : x.info.node_id = id
  · subst hid
    rw [gossip_update_self m x cur hf]
    by_cases h1 : cur.info.incarnation < x.info.incarnation
    · exact ⟨x, by simp [h1], le_of_lt h1⟩
    · by_cases h2 : x.info.incarnation < cur.info.incarnation
      · exact ⟨cur, by simp [h1, h2], le_refl _⟩
      · exact ⟨{ cur with
          status :=
            if cur.heartbeat ≤ x.heartbeat ∧ x.status ≠ cur.status then x.status
            else cur.status.downgrade_to x.status,
          heartbeat := max cur.heartbeat x.heartbeat }, by simp [h1, h2], le_refl _⟩
  · exact ⟨cur, by rw [gossip_update_other m x id hid]; exact hf, le_refl _⟩

theorem applyUpdates_inc_mono (ms : List MemberState) (m : Membership) (id : Nat)
    (cur : MemberState) (hf : findEntry id m.members = some cur) :
    ∃ cur2, findEntry id (applyUpdates m ms).members = some cur2 ∧
      cur.info.incarnation ≤ cur2.info.incarnation := by
  induction ms generalizing m cur with
  | nil => exact ⟨cur, hf, le_refl _⟩
  | cons x xs ih =>
    obtain ⟨cur1, hf1, hle1⟩ := gossip_update_inc_mono m x id cur hf
    obtain ⟨cur2, hf2, hle2⟩ := ih (gossip.update_member m x).1 cur1 hf1
    exact ⟨cur2, hf2, hle1.trans hle2⟩

theorem downgrade_to_alive (s : MemberStatus) :
    s.downgrade_to MemberStatus.Alive = MemberStatus.Alive := by
  cases s <;> rfl

theorem localAlive_iff (s : GossipState) :
    s.localAlive = true ↔ ∃ ms,
      findEntry s.current_node.node_id s.membership.members = some ms ∧
        ms.status = MemberStatus.Alive := by
  rw [GossipState.localAlive]
  rcases hf : findEntry s.current_node.node_id s.membership.members with _ | ms
  · simp
  · simp [hf]

theorem is_dead_false_of_alive {m : Membership} {id : Nat} {ms : MemberState}
    (hf : findEntry id m.members = some ms)
    (hs : ms.status = MemberStatus.Alive) : m.is_dead id = false := by
  simp [Membership.is_dead, hf, hs]

theorem QInv_update {id c : Nat} {m : Membership} {mem : MemberState}
    (hq : QInv id c m)
    (hb : mem.info.node_id = id → mem.status = MemberStatus.Dead →
      mem.info.incarnation ≤ c) :
    QInv id c (gossip.update_member m mem).1 := by
  obtain ⟨ms, hf, hd⟩ := hq
  by_cases hid : mem.info.node_id = id
  · subst hid
    rw [QInv, gossip_update_self m mem ms hf]
    by_cases h1 : ms.info.incarnation < mem.info.incarnation
    · rw [if_pos h1]
      rcases hst : mem.status with _ | _
      · exact ⟨mem, rfl, Or.inl hst⟩
      · exact ⟨mem, rfl, Or.inr (hb rfl hst)⟩
    · by_cases h2 : mem.info.incarnation < ms.info.incarnation
      · rw [if_neg h1, if_pos h2]
        exact ⟨ms, rfl, hd⟩
      · have heq : mem.info.incarnation = ms.info.incarnation := by omega
        rw [if_neg h1, if_neg h2]
        refine ⟨_, rfl, ?_⟩
        rcases hd with hd | hd
        · by_cases hin : ms.info.incarnation ≤ c
          · exact Or.inr hin
          · rcases hst : mem.status with _ | _
            · left
              simp [hst, hd, MemberStatus.downgrade_to]
            · exact absurd (heq ▸ hb rfl hst) hin
        · exact Or.inr hd
  · obtain h := gossip_update_other m mem id hid
    exact ⟨ms, h ▸ hf, hd⟩

theorem QInv_foldl {id c : Nat} {members : List MemberState} {m : Membership}
    (hq : QInv id c m)
    (hb : ∀ mem ∈ members, mem.info.node_id = id →
      mem.status = MemberStatus.Dead → mem.info.incarnation ≤ c) :
    QInv id c (members.foldl (fun m mem => (gossip.update_member m mem).1) m) := by
  induction members generalizing m with
  | nil => exact hq
  | cons mem rest ih =>
    exact ih (QInv_update hq (hb mem (by simp)))
      fun x hx => hb x (List.mem_cons.2 (Or.inr hx))

theorem QInv_reassert {id c : Nat} {m : Membership} {info : NodeInfo}
    {now : Nat} (hid : info.node_id = id) (hinc : info.incarnation = c)
    (hq : QInv id c m) :
    ∃ ms, findEntry id
        (gossip.update_member m ⟨info, MemberStatus.Alive, now⟩).1.members
      = some ms ∧ ms.status = MemberStatus.Alive := by
  obtain ⟨ms, hf, hd⟩ := hq
  have hf2 : findEntry (⟨info, MemberStatus.Alive, now⟩ : MemberState).info.node_id
      m.members = some ms := by
    simpa [hid] using hf
  have h := gossip_update_self m ⟨info, MemberStatus.Alive, now⟩ ms hf2
  simp only at h
  rw [hid] at h
  rw [h]
  by_cases h1 : ms.info.incarnation < info.incarnation
  · rw [if_pos h1]
    exact ⟨_, rfl, rfl⟩
  · by_cases h2 : info.incarnation < ms.info.incarnation
    · rw [if_neg h1, if_pos h2]
      rcases hd with hd | hd
      · exact ⟨ms, rfl, hd⟩
      · omega
    · rw [if_neg h1, if_neg h2]
      refine ⟨_, rfl, ?_⟩
      by_cases hcond : ms.heartbeat ≤ now ∧
          (MemberStatus.Alive : MemberStatus) ≠ ms.status
      · simp [hcond]
      · simp [hcond, downgrade_to_alive]

theorem alive_update_alive {id : Nat} {m : Membership} {info : NodeInfo}
    {now : Nat}
    (h : ∃ ms, findEntry id m.members = some ms ∧
      ms.status = MemberStatus.Alive) :
    ∃ ms, findEntry id
        (gossip.update_member m ⟨info, MemberStatus.Alive, now⟩).1.members
      = some ms ∧ ms.status = MemberStatus.Alive := by
  obtain ⟨ms, hf, hs⟩ := h
  by_cases hid : info.node_id = id
  · have hf2 : findEntry
        (⟨info, MemberStatus.Alive, now⟩ : MemberState).info.node_id m.members
        = some ms := by
      simpa [hid] using hf
    have h := gossip_update_self m ⟨info, MemberStatus.Alive, now⟩ ms hf2
    simp only at h
    rw [hid] at h
    rw [h]
    by_cases h1 : ms.info.incarnation < info.incarnation
    · rw [if_pos h1]
      exact ⟨_, rfl, rfl⟩
    · by_cases h2 : info.incarnation < ms.info.incarnation
      · rw [if_neg h1, if_pos h2]
        exact ⟨ms, rfl, hs⟩
      · rw [if_neg h1, if_neg h2]
        refine ⟨_, rfl, ?_⟩
        simp [hs, downgrade_to_alive]
  · have h := gossip_update_other m ⟨info, MemberStatus.Alive, now⟩ id
      (by simpa using hid)
    exact ⟨ms, h ▸ hf, hs⟩

theorem benignFor_sync {id inc : Nat} {members : List MemberState}
    (hb : benignFor id inc (GossipMessage.Sync members) = true) :
    ∀ mem ∈ members, mem.info.node_id = id →
      mem.status = MemberStatus.Dead → mem.info.incarnation ≤ inc := by
  intro mem hmem hid hst
  have := List.all_eq_true.1 hb mem hmem
  simp [hid, hst] at this
  exact this

theorem handle_message_fst (s : GossipState) (now : Nat) (msg : GossipMessage) :
    (s.handle_message now msg).1 =
      if (handleMembership s now msg).is_dead s.current_node.node_id then
        { s with membership := handleMembership s now msg,
                 current_node := s.current_node.advance_incarnation }
      else { s with membership := handleMembership s now msg } := by
  cases msg <;>
    (simp only [GossipState.handle_message, handleMembership]; split <;> rfl)

theorem handle_message_alive {s : GossipState} {now : Nat} {msg : GossipMessage}
    (ha : s.localAlive = true)
    (hb : benignFor s.current_node.node_id s.current_node.incarnation msg = true) :
    (s.handle_message now msg).1.current_node = s.current_node ∧
      (s.handle_message now msg).1.localAlive = true := by
  obtain ⟨ms, hf, hs⟩ := (localAlive_iff s).1 ha
  have key : ∃ ms2, findEntry s.current_node.node_id
      (handleMembership s now msg).members = some ms2 ∧
      ms2.status = MemberStatus.Alive := by
    cases msg with
    | Ping info => exact alive_update_alive ⟨ms, hf, hs⟩
    | Ack info => exact alive_update_alive ⟨ms, hf, hs⟩
    | Sync members =>
      have hq0 : QInv s.current_node.node_id s.current_node.incarnation
          s.membership := ⟨ms, hf, Or.inl hs⟩
      exact QInv_reassert rfl rfl (QInv_foldl hq0 (benignFor_sync hb))
  obtain ⟨ms2, hf2, hs2⟩ := key
  have hdead : (handleMembership s now msg).is_dead s.current_node.node_id
      = false := is_dead_false_of_alive hf2 hs2
  rw [handle_message_fst, hdead]
  simp only [Bool.false_eq_true, if_false]
  exact ⟨trivial, (localAlive_iff _).2 ⟨ms2, hf2, hs2⟩⟩

theorem runMessages_alive {s : GossipState}
    {msgs : List (Nat × GossipMessage)} (ha : s.localAlive = true)
    (hb : ∀ p ∈ msgs, benignFor s.current_node.node_id
      s.current_node.incarnation p.2 = true) :
    (runMessages s msgs).current_node = s.current_node ∧
      (runMessages s msgs).localAlive = true := by
  induction msgs generalizing s with
  | nil => exact ⟨rfl, ha⟩
  | cons p rest ih =>
    obtain ⟨hcur, hal⟩ := @handle_message_alive s p.1 p.2 ha (hb p (by simp))
    obtain ⟨hcur2, hal2⟩ := ih hal fun q hq => by
      rw [hcur]; exact hb q (List.mem_cons.2 (Or.inr hq))
    rw [runMessages]
    exact ⟨hcur2.trans hcur, hal2⟩

theorem gossip_update_presence (m : Membership) (x : MemberState) (id : Nat)
    (h : (findEntry id m.members).isSome = true) :
    (findEntry id (gossip.update_member m x).1.members).isSome = true := by
  rcases hf : findEntry id m.members with _ | cur
  · rw [hf] at h
    simp at h
  · obtain ⟨cur2, hf2, _⟩ := gossip_update_inc_mono m x id cur hf
    simp [hf2]

theorem foldl_update_presence (members : List MemberState) (m : Membership)
    (id : Nat) (h : (findEntry id m.members).isSome = true) :
    (findEntry id
      (members.foldl (fun m mem => (gossip.update_member m mem).1) m).members).isSome
      = true := by
  induction members generalizing m with
  | nil => exact h
  | cons mem rest ih => exact ih _ (gossip_update_presence m mem id h)

theorem handle_message_presence (s : GossipState) (now : Nat)
    (msg : GossipMessage) (id : Nat)
    (h : (findEntry id s.membership.members).isSome = true) :
    (findEntry id (s.handle_message now msg).1.membership.members).isSome
      = true := by
  rw [handle_message_fst]
  have key : (findEntry id (handleMembership s now msg).members).isSome = true := by
    cases msg with
    | Ping info => exact gossip_update_presence _ _ _ h
    | Ack info => exact gossip_update_presence _ _ _ h
    | Sync members =>
      exact gossip_update_presence _ _ _ (foldl_update_presence _ _ _ h)
  split <;> exact key

theorem pingPhase_presence (replies : List (Nat × Option GossipMessage))
    (s : GossipState) (id : Nat)
    (h : (findEntry id s.membership.members).isSome = true) :
    (findEntry id (pingPhase s replies).membership.members).isSome = true := by
  induction replies generalizing s with
  | nil => exact h
  | cons r rest ih =>
    obtain ⟨now, reply⟩ := r
    rcases reply with _ | msg
    · exact ih s h
    · cases msg with
      | Ping info => exact ih s h
      | Ack info => exact ih _ (handle_message_presence s now _ id h)
      | Sync members => exact ih s h

theorem syncPhase_presence (replies : List (Nat × Option GossipMessage))
    (s : GossipState) (id : Nat)
    (h : (findEntry id s.membership.members).isSome = true) :
    (findEntry id (syncPhase s replies).membership.members).isSome = true := by
  induction replies generalizing s with
  | nil => exact h
  | cons r rest ih =>
    obtain ⟨now, reply⟩ := r
    rcases reply with _ | msg
    · exact ih s h
    · cases msg with
      | Ping info => exact ih s h
      | Ack info => exact ih s h
      | Sync members => exact ih _ (handle_message_presence s now _ id h)

theorem fast_bootstrap_presence (s : GossipState)
    (pingReplies syncReplies : List (Nat × Option GossipMessage)) (now : Nat)
    (id : Nat) (h : (findEntry id s.membership.members).isSome = true) :
    (findEntry id
      (s.fast_bootstrap pingReplies syncReplies now).membership.members).isSome
      = true := by
  rw [GossipState.fast_bootstrap]
  exact gossip_update_presence _ _ _
    (syncPhase_presence _ _ _ (pingPhase_presence _ _ _ h))

theorem findEntry_ne_nil {id : Nat} {l : List (Nat × MemberState)}
    (h : (findEntry id l).isSome = true) : l ≠ [] := by
  intro he
  subst he
  simp [findEntry] at h

/-! ### Claim theorems -/

/-- C1 counterexample: a GET whose key routes to the remote owner
10.0.0.2:7654 is answered with the remote read result, status 200 with no
Location header, not with 307 Temporary Redirect. -/
theorem c1_counterexample :
    cexRoute cexReq.key = server.RouteDest.RemoteAddr "10.0.0.2:7654" ∧
    server.ClusterProxyEndpoint.call (some cexRoute) cexClient cexEndpoint cexReq
      = server.get_success [118, 97, 108] ∧
    (server.ClusterProxyEndpoint.call (some cexRoute) cexClient cexEndpoint
      cexReq).status = 200 ∧
    (server.ClusterProxyEndpoint.call (some cexRoute) cexClient cexEndpoint
      cexReq).location = none :=
  ⟨rfl, rfl, rfl, rfl⟩

/-- C1 (corrected): for a data-plane request whose key routes to a remote
owner, ClusterProxyEndpoint::call does not redirect; it forwards the
operation to the remote owner through an internal client (including the
request body for PUT), maps the remote result to 200/404/201/204, falls back
to the local endpoint on a client error or an unrecognized method, and never
produces 307 unless the local endpoint does. -/
theorem c1_remote_forwarding :
    ∀ (route : String → server.RouteDest)
      (client : String → server.RemoteClient)
      (endpoint : server.Request → server.Response) (req : server.Request)
      (addr : String), route req.key = server.RouteDest.RemoteAddr addr →
      (∀ value, req.method = server.Method.GET →
        (client addr).get req.key = Except.ok (some value) →
        server.ClusterProxyEndpoint.call (some route) client endpoint req
          = server.get_success value) ∧
      (req.method = server.Method.GET →
        (client addr).get req.key = Except.ok none →
        server.ClusterProxyEndpoint.call (some route) client endpoint req
          = server.get_not_found) ∧
      (∀ e, req.method = server.Method.GET →
        (client addr).get req.key = Except.error e →
        server.ClusterProxyEndpoint.call (some route) client endpoint req
          = endpoint req) ∧
      (req.method = server.Method.PUT →
        (client addr).put req.key req.body = Except.ok () →
        server.ClusterProxyEndpoint.call (some route) client endpoint req
          = server.put_success) ∧
      (∀ e, req.method = server.Method.PUT →
        (client addr).put req.key req.body = Except.error e →
        server.ClusterProxyEndpoint.call (some route) client endpoint req
          = endpoint req) ∧
      (req.method = server.Method.DELETE →
        (client addr).delete req.key = Except.ok () →
        server.ClusterProxyEndpoint.call (some route) client endpoint req
          = server.delete_success) ∧
      (∀ e, req.method = server.Method.DELETE →
        (client addr).delete req.key = Except.error e →
        server.ClusterProxyEndpoint.call (some route) client endpoint req
          = endpoint req) ∧
      (req.method = server.Method.OTHER →
        server.ClusterProxyEndpoint.call (some route) client endpoint req
          = endpoint req) ∧
      ((endpoint req).status ≠ 307 →
        (server.ClusterProxyEndpoint.call (some route) client endpoint
          req).status ≠ 307) := by
  intro route client endpoint req addr hroute
  refine ⟨?_, ?_, ?_, ?_, ?_, ?_, ?_, ?_, ?_⟩
  · intro value hm hg
    simp [server.ClusterProxyEndpoint.call, hroute, hm, hg]
  · intro hm hg
    simp [server.ClusterProxyEndpoint.call, hroute, hm, hg]
  · intro e hm hg
    simp [server.ClusterProxyEndpoint.call, hroute, hm, hg]
  · intro hm hg
    simp [server.ClusterProxyEndpoint.call, hroute, hm, hg]
  · intro e hm hg
    simp [server.ClusterProxyEndpoint.call, hroute, hm, hg]
  · intro hm hg
    simp [server.ClusterProxyEndpoint.call, hroute, hm, hg]
  · intro e hm hg
    simp [server.ClusterProxyEndpoint.call, hroute, hm, hg]
  · intro hm
    simp [server.ClusterProxyEndpoint.call, hroute, hm]
  · intro h307
    cases hm : req.method <;>
      simp only [server.ClusterProxyEndpoint.call, hroute, hm]
    · rcases hg : (client addr).get req.key with e | v
      · exact h307
      · rcases v with _ | value <;> simp [server.get_not_found, server.get_success]
    · rcases hg : (client addr).put req.key req.body with e | u
      · exact h307
      · simp [server.put_success]
    · rcases hg : (client addr).delete req.key with e | u
      · exact h307
      · simp [server.delete_success]
    · exact h307

/-- C1 witness: the amended forwarding behavior at the concrete fixture. -/
theorem c1_witness :
    server.ClusterProxyEndpoint.call (some cexRoute) cexClient cexEndpoint
      cexReq = server.get_success [118, 97, 108] :=
  (c1_remote_forwarding cexRoute cexClient cexEndpoint cexReq
    "10.0.0.2:7654" rfl).1 [118, 97, 108] rfl rfl

/-- C2 (code bug): at equal incarnation, with a stale incoming observation
(incoming heartbeat 5 below the stored heartbeat 10), both update_member
variants flip a stored Dead status to Alive through downgrade_to, while the
claim, the function name, and the code comments only allow Alive to Dead. -/
theorem c2_downgrade_code_bug :
    gossip.update_member ⟨[(0, ⟨info0, MemberStatus.Dead, 10⟩)]⟩
        ⟨info0, MemberStatus.Alive, 5⟩
      = (⟨[(0, ⟨info0, MemberStatus.Alive, 10⟩)]⟩, true) ∧
    cluster.update_member ⟨[(0, ⟨info0, MemberStatus.Dead, 10⟩)]⟩
        ⟨info0, MemberStatus.Alive, 5⟩
      = ⟨[(0, ⟨info0, MemberStatus.Alive, 10⟩)]⟩ ∧
    (5 : Nat) < 10 ∧
    MemberStatus.Dead.downgrade_to MemberStatus.Alive = MemberStatus.Alive := by
  decide

/-- C3 counterexample: from a state whose membership holds the local node
Alive, one Sync carrying the local node id as Dead at a higher incarnation
leaves the local entry present but Dead, not Alive. -/
theorem c3_counterexample :
    s0.localAlive = true ∧
    (runMessages s0
      [(2, GossipMessage.Sync [⟨info0inc1, MemberStatus.Dead, 1⟩])]).localAlive
      = false ∧
    findEntry 0 (runMessages s0
      [(2, GossipMessage.Sync [⟨info0inc1, MemberStatus.Dead, 1⟩])]).membership.members
      = some ⟨info0inc1, MemberStatus.Dead, 1⟩ := by
  decide

/-- C3 (corrected): starting from a state whose membership holds the local
node id with status Alive, after any sequence of handler invocations in
which no Sync member reports the local node id Dead at an incarnation above
the local node's own, the local node id is present in Membership with status
Alive. -/
theorem c3_self_liveness :
    ∀ (s : GossipState) (msgs : List (Nat × GossipMessage)),
      s.localAlive = true →
      (∀ p ∈ msgs, benignFor s.current_node.node_id
        s.current_node.incarnation p.2 = true) →
      (runMessages s msgs).localAlive = true :=
  fun _ _ ha hb => (runMessages_alive ha hb).2

/-- C3 witness: the amended self-liveness at a concrete state and a
concrete Ping and Sync sequence. -/
theorem c3_witness :
    (runMessages s0 [(1, GossipMessage.Ping info1),
      (3, GossipMessage.Sync [⟨info1, MemberStatus.Dead, 2⟩])]).localAlive
      = true :=
  c3_self_liveness s0 _ (by decide) (by decide)

/-- C4: for a fixed node id the stored incarnation is non-decreasing across
any sequence of update_member calls; a strictly higher incoming incarnation
replaces the stored entry entirely, and a strictly lower one is ignored,
leaving the membership unchanged. -/
theorem c4_incarnation_monotonicity :
    (∀ (m : Membership) (updates : List MemberState) (id i : Nat),
      storedInc m id = some i →
      ∃ j, storedInc (applyUpdates m updates) id = some j ∧ i ≤ j) ∧
    (∀ (m : Membership) (x cur : MemberState),
      findEntry x.info.node_id m.members = some cur →
      cur.info.incarnation < x.info.incarnation →
      gossip.update_member m x
        = (⟨insertEntry x.info.node_id x m.members⟩, true)) ∧
    (∀ (m : Membership) (x cur : MemberState),
      findEntry x.info.node_id m.members = some cur →
      x.info.incarnation < cur.info.incarnation →
      gossip.update_member m x = (m, false)) := by
  refine ⟨?_, ?_, ?_⟩
  · intro m updates id i hsi
    rw [storedInc] at hsi
    rcases hf : findEntry id m.members with _ | cur
    · rw [hf] at hsi
      simp at hsi
    · rw [hf] at hsi
      simp only [Option.map_some', Option.some.injEq] at hsi
      obtain ⟨cur2, hf2, hle⟩ := applyUpdates_inc_mono updates m id cur hf
      refine ⟨cur2.info.incarnation, ?_, ?_⟩
      · rw [storedInc, hf2]
        rfl
      · omega
  · intro m x cur hf hlt
    simp [gossip.update_member, hf, hlt]
  · intro m x cur hf hlt
    have h1 : ¬ cur.info.incarnation < x.info.incarnation := by omega
    simp [gossip.update_member, hf, h1, hlt]

/-- C4 witness: the sequence monotonicity, the replacement, and the
ignore branch at concrete memberships. -/
theorem c4_witness :
    (∃ j, storedInc (applyUpdates ⟨[(0, ⟨info0, MemberStatus.Alive, 0⟩)]⟩
      [⟨info0inc1, MemberStatus.Dead, 1⟩, ⟨info0, MemberStatus.Alive, 2⟩]) 0
      = some j ∧ 0 ≤ j) ∧
    gossip.update_member ⟨[(0, ⟨info0, MemberStatus.Alive, 0⟩)]⟩
        ⟨info0inc1, MemberStatus.Dead, 1⟩
      = (⟨[(0, ⟨info0inc1, MemberStatus.Dead, 1⟩)]⟩, true) ∧
    gossip.update_member ⟨[(0, ⟨info0inc1, MemberStatus.Dead, 1⟩)]⟩
        ⟨info0, MemberStatus.Alive, 2⟩
      = (⟨[(0, ⟨info0inc1, MemberStatus.Dead, 1⟩)]⟩, false) :=
  ⟨c4_incarnation_monotonicity.1 _ _ 0 0 (by decide),
   by
    have h := c4_incarnation_monotonicity.2.1
      ⟨[(0, ⟨info0, MemberStatus.Alive, 0⟩)]⟩
      ⟨info0inc1, MemberStatus.Dead, 1⟩ ⟨info0, MemberStatus.Alive, 0⟩
      (by decide) (by decide)
    rw [h]
    decide,
   by
    have h := c4_incarnation_monotonicity.2.2
      ⟨[(0, ⟨info0inc1, MemberStatus.Dead, 1⟩)]⟩
      ⟨info0, MemberStatus.Alive, 2⟩ ⟨info0inc1, MemberStatus.Dead, 1⟩
      (by decide) (by decide)
    exact h⟩

/-- C5: two rings built from the same node ids and the same vnodes count
yield identical lookups regardless of insertion order, and the concrete ring
over node1, node2, node3 with vnodes 3 under MurmurHash3 x86-32 seed 0 maps
key1 to node2, key2 to node1 and key3 to node1. -/
theorem c5_ring_determinism :
    (∀ (vnode : Nat) (l1 l2 : List String), l1.Perm l2 →
      make_ring strBytes vnode l1 = make_ring strBytes vnode l2) ∧
    (make_ring strBytes 3 ["node1", "node2", "node3"]).lookup
      (strBytes "key1") = some "node2" ∧
    (make_ring strBytes 3 ["node1", "node2", "node3"]).lookup
      (strBytes "key2") = some "node1" ∧
    (make_ring strBytes 3 ["node1", "node2", "node3"]).lookup
      (strBytes "key3") = some "node1" :=
  ⟨fun vnode _ _ p => make_ring_perm strBytes vnode p,
   by decide, by decide, by decide⟩

/-- C5 witness: two insertion orders of the same three nodes give equal
rings. -/
theorem c5_witness :
    make_ring strBytes 3 ["node1", "node2", "node3"]
      = make_ring strBytes 3 ["node3", "node1", "node2"] :=
  c5_ring_determinism.1 3 _ _ (by decide)

/-- C6: every ring built by add_node is well formed, and on a well-formed
nonempty ring, lookup returns the smallest node of the first slot whose hash
is at or above the key hash, wrapping to the smallest slot when no such slot
exists. -/
theorem c6_lookup_spec :
    (∀ (T : Type) [LinearOrder T] (asBytes : T → List Nat)
      (vnode : Nat) (l : List T), ringWF (make_ring asBytes vnode l)) ∧
    (∀ (T : Type) [LinearOrder T] (r : HashRing T), ringWF r →
      r.nodes ≠ [] → ∀ key, ∃ k s x, (k, s) ∈ r.nodes ∧ x ∈ s ∧
        (∀ y ∈ s, x ≤ y) ∧ r.lookup key = some x ∧
        ((hash_key key ≤ k ∧ ∀ q ∈ r.nodes, hash_key key ≤ q.1 → k ≤ q.1) ∨
          ((∀ q ∈ r.nodes, q.1 < hash_key key) ∧ ∀ q ∈ r.nodes, k ≤ q.1))) :=
  ⟨fun _ _ asBytes vnode l => make_ring_wf asBytes vnode l,
   fun _ _ _ hr hne key => lookup_characterization hr hne key⟩

/-- C6 witness: the lookup characterization at the concrete three-node
ring and key1. -/
theorem c6_witness :
    ∃ k s x, (k, s) ∈ (make_ring strBytes 3 ["node1", "node2", "node3"]).nodes
      ∧ x ∈ s ∧ (∀ y ∈ s, x ≤ y) ∧
      (make_ring strBytes 3 ["node1", "node2", "node3"]).lookup
        (strBytes "key1") = some x ∧
      ((hash_key (strBytes "key1") ≤ k ∧
        ∀ q ∈ (make_ring strBytes 3 ["node1", "node2", "node3"]).nodes,
          hash_key (strBytes "key1") ≤ q.1 → k ≤ q.1) ∨
        ((∀ q ∈ (make_ring strBytes 3 ["node1", "node2", "node3"]).nodes,
          q.1 < hash_key (strBytes "key1")) ∧
         ∀ q ∈ (make_ring strBytes 3 ["node1", "node2", "node3"]).nodes,
          k ≤ q.1)) :=
  c6_lookup_spec.2 String (make_ring strBytes 3 ["node1", "node2", "node3"])
    (make_ring_wf strBytes 3 ["node1", "node2", "node3"]) (by decide)
    (strBytes "key1")

/-- C7 counterexample: with no initial peer configured, start succeeds
rather than failing with the no-initial-peer error, because the membership
already holds the local node after bootstrap. -/
theorem c7_counterexample :
    s0.initial_peers = [] ∧
    (GossipState.start s0 1 [] [] 2).isOk = true := by
  constructor
  · rfl
  · decide

/-- C7 (corrected): start fails exactly when the membership is empty after
the bootstrap phase; but the membership always still holds the local node
after bootstrap, because start first inserts the local node Alive and no
message handler removes entries, so start succeeds for every set of peer
replies, in particular when no initial peer is configured. -/
theorem c7_start_never_fails :
    ∀ (s : GossipState) (now : Nat)
      (pingReplies syncReplies : List (Nat × Option GossipMessage))
      (bootNow : Nat),
      (findEntry s.current_node.node_id
        (GossipState.fast_bootstrap
          { s with membership :=
            Membership.from_iter [⟨s.current_node, MemberStatus.Alive, now⟩] }
          pingReplies syncReplies bootNow).membership.members).isSome = true ∧
      (s.start now pingReplies syncReplies bootNow).isOk = true := by
  intro s now pr sr bn
  have hseed : (findEntry s.current_node.node_id
      (Membership.from_iter
        [⟨s.current_node, MemberStatus.Alive, now⟩]).members).isSome = true := by
    simp [Membership.from_iter, insertEntry, findEntry]
  have hpres := fast_bootstrap_presence
    { s with membership :=
      Membership.from_iter [⟨s.current_node, MemberStatus.Alive, now⟩] }
    pr sr bn s.current_node.node_id hseed
  refine ⟨hpres, ?_⟩
  simp only [GossipState.start]
  rw [if_neg (findEntry_ne_nil hpres)]
  rfl

/-- C8: the rate limiter sizes run permits at cores x 100 and wait permits
at run permits x 5; a request that finds no wait permit is answered 429
without the inner endpoint running, and otherwise the inner endpoint runs
after the run permit is awaited. -/
theorem c8_rate_limiter :
    (∀ cores : Nat,
      (server.RateLimitMiddleware.new cores).run_permit = cores * 100 ∧
      (server.RateLimitMiddleware.new cores).wait_permit
        = (server.RateLimitMiddleware.new cores).run_permit * 5) ∧
    (∀ (endpoint : server.Request → server.Response) (req : server.Request),
      server.RateLimitEndpoint.call 0 endpoint req
        = (⟨429, none, server.RespBody.statusText 429⟩, false)) ∧
    (∀ (n : Nat) (endpoint : server.Request → server.Response)
      (req : server.Request),
      server.RateLimitEndpoint.call (n + 1) endpoint req
        = (endpoint req, true)) := by
  refine ⟨fun cores => ⟨rfl, rfl⟩, fun endpoint req => rfl,
    fun n endpoint req => ?_⟩
  simp [server.RateLimitEndpoint.call]

/-- C9: the engine read path surfaces every disk-layer error as none, and a
successful read returns exactly the stored value. -/
theorem c9_get_swallows_errors :
    (∀ err, FoyerEngine.get (Except.error err) = none) ∧
    (∀ value, FoyerEngine.get (Except.ok (some value)) = some value) ∧
    FoyerEngine.get (Except.ok none) = none :=
  ⟨fun _ => rfl, fun _ => rfl, rfl⟩

/-- C10: an incoming member whose node id is absent is inserted unchanged,
whatever its status and incarnation, and the gossip variant reports the map
as modified. -/
theorem c10_insert_new_member :
    ∀ (m : Membership) (member : MemberState),
      findEntry member.info.node_id m.members = none →
      gossip.update_member m member
        = (⟨insertEntry member.info.node_id member m.members⟩, true) ∧
      findEntry member.info.node_id
        (gossip.update_member m member).1.members = some member ∧
      cluster.update_member m member
        = ⟨insertEntry member.info.node_id member m.members⟩ := by
  intro m member hf
  refine ⟨?_, ?_, ?_⟩
  · simp [gossip.update_member, hf]
  · simp [gossip.update_member, hf, findEntry_insertEntry]
  · simp [cluster.update_member, hf]

/-- C10 witness: inserting a previously unknown Dead member at incarnation 7
keeps it unchanged and reports a modification. -/
theorem c10_witness :
    gossip.update_member ⟨[]⟩ ⟨info0inc1, MemberStatus.Dead, 7⟩
      = (⟨insertEntry 0 ⟨info0inc1, MemberStatus.Dead, 7⟩ []⟩, true) ∧
    findEntry 0 (gossip.update_member ⟨[]⟩
      ⟨info0inc1, MemberStatus.Dead, 7⟩).1.members
      = some ⟨info0inc1, MemberStatus.Dead, 7⟩ ∧
    cluster.update_member ⟨[]⟩ ⟨info0inc1, MemberStatus.Dead, 7⟩
      = ⟨insertEntry 0 ⟨info0inc1, MemberStatus.Dead, 7⟩ []⟩ :=
  c10_insert_new_member ⟨[]⟩ ⟨info0inc1, MemberStatus.Dead, 7⟩ (by decide)

end Percas

